import Mathlib

/-!
Shallow embedding of the message-delivery and conversation-aggregation core
of the realtime chat application (server/services/userService.js,
server/controllers/userController.js, server/models/messageModel.js).

Modelling choices:
* User identifiers are `String`s (Mongo ObjectIds compared via `toString()`).
* Timestamps are `Nat`s.  The schema stores three timestamp fields per
  message: `time` (default `Date.now`) plus the mongoose `timestamps : true`
  pair `createdAt` / `updatedAt`; all three are set at creation and the
  service exposes no update operation, so creation assigns one clock value
  `now` to all three, and theorems that relate queries sorting on one field
  to claims phrased over another carry the corresponding equality invariant
  as an explicit hypothesis.
* The Mongo store is a `List Message`; `Message.create` appends, `find`
  filters, `findById` is `find?`, `findByIdAndDelete` erases the first
  record with the id.  Sorting (`.sort`, `$sort`) is modelled by the stable
  `List.insertionSort`.
* JavaScript truthiness of the optional string inputs (`!text`,
  `!imageFile`, `!senderId`, ...) is `optTruthy` / `strTruthy`: absent or
  empty strings are falsy.
* The `$group` stage of the conversations aggregation partitions the
  `$sort`-ed stream by its `_id` expression; `$first` picks the head of
  each partition in stream order and `$sum : 1` its size.  Groups are
  emitted in order of first appearance.  The `$cond`/`$eq` key expression
  over `$users.0` / `$users.1` is read as positional indexing into the
  participants array.
* The media filesystem is a `List String` of stored paths; `fs.existsSync`
  is membership and `fs.unlinkSync` erases the path.
-/

namespace ChatApp

/-- The `message.type` enum of the message schema: `text`, `image`, `mixed`. -/
inductive ContentType where
  | text
  | image
  | mixed
deriving DecidableEq, Repr

/-- The embedded `message` subdocument: optional `text`, optional `image`
path, and the `type` tag. -/
structure Content where
  text : Option String := none
  image : Option String := none
  type : ContentType
deriving DecidableEq, Repr

/-- A persisted message record (messageModel.js): `message` content,
`users` participant array, `sender`, `time`, and the mongoose
`createdAt` / `updatedAt` timestamps. -/
structure Message where
  id : Nat
  message : Content
  users : List String
  sender : String
  time : Nat
  createdAt : Nat
  updatedAt : Nat
deriving DecidableEq, Repr

/-- JavaScript truthiness of a string: empty strings are falsy. -/
def strTruthy (s : String) : Bool :=
  decide (s ≠ "")

/-- JavaScript truthiness of an optional string: absent and empty are falsy. -/
def optTruthy : Option String → Bool
  | none => false
  | some s => decide (s ≠ "")

/-- The content classification of `createMessage` (userService.js 573-589):
image and text present gives `mixed`, image alone gives `image`, otherwise
`text`.  `imageFile` is the uploaded file's name; the stored path prepends
`/uploads/`. -/
def classifyContent (text imageFile : Option String) : Content :=
  if optTruthy imageFile && optTruthy text then
    { text := text, image := imageFile.map (fun f => "/uploads/" ++ f), type := ContentType.mixed }
  else if optTruthy imageFile then
    { image := imageFile.map (fun f => "/uploads/" ++ f), type := ContentType.image }
  else
    { text := text, type := ContentType.text }

/-- Errors of the message-service operations, with the HTTP status codes the
service attaches to them. -/
inductive SendError where
  | missingIds
  | emptyContent
deriving DecidableEq, Repr

/-- Status code of a send failure: both validation failures are 400. -/
def SendError.statusCode : SendError → Nat
  | .missingIds => 400
  | .emptyContent => 400

/-- `MessageService.createMessage` (userService.js 550-610): validates that
sender and recipient ids are present, that at least one of text/image is
present, classifies the content and appends the new record with
`users = [senderId, toId]`, `sender = senderId` and all timestamp fields set
to the creation instant.  Returns the result together with the store after
the call. -/
def createMessage (senderId toId : String) (text imageFile : Option String)
    (newId now : Nat) (st : List Message) :
    Except SendError Message × List Message :=
  if !strTruthy senderId || !strTruthy toId then
    (.error .missingIds, st)
  else if !optTruthy text && !optTruthy imageFile then
    (.error .emptyContent, st)
  else
    let m : Message :=
      { id := newId
        message := classifyContent text imageFile
        users := [senderId, toId]
        sender := senderId
        time := now
        createdAt := now
        updatedAt := now }
    (.ok m, st ++ [m])

/-- The projection `getMessages` applies to each fetched record
(userService.js 634-639): `fromSelf`, `message`, `time`, `_id`. -/
structure ProjectedMessage where
  fromSelf : Bool
  message : Content
  time : Nat
  id : Nat
deriving DecidableEq, Repr

/-- Errors of the read operations: missing user ids. -/
inductive QueryError where
  | missingIds
deriving DecidableEq, Repr

/-- The per-record projection of `getMessages`. -/
def project (viewer : String) (m : Message) : ProjectedMessage :=
  { fromSelf := decide (m.sender = viewer)
    message := m.message
    time := m.time
    id := m.id }

/-- `MessageService.getMessages` (userService.js 618-655): `find` the
records whose `users` array contains both ids (`$all`), sort them by
`updatedAt` ascending, and project each. -/
def getMessages (currentUserId otherUserId : String) (st : List Message) :
    Except QueryError (List ProjectedMessage) :=
  if !strTruthy currentUserId || !strTruthy otherUserId then
    .error .missingIds
  else
    let msgs := List.insertionSort (fun a b => a.updatedAt ≤ b.updatedAt)
      (st.filter (fun m => decide (currentUserId ∈ m.users) && decide (otherUserId ∈ m.users)))
    .ok (msgs.map (project currentUserId))

/-- `getMessages` as a state transformer on the store: the handler only
issues a `find`, so the store after the call is the store before it. -/
def getMessagesOp (currentUserId otherUserId : String) (st : List Message) :
    Except QueryError (List ProjectedMessage) × List Message :=
  (getMessages currentUserId otherUserId st, st)

/-- Errors of `deleteMessage`, with their HTTP status codes. -/
inductive DeleteError where
  | missingIds
  | notFound
  | forbidden
deriving DecidableEq, Repr

/-- Status codes of delete failures: 400, 404, 403. -/
def DeleteError.statusCode : DeleteError → Nat
  | .missingIds => 400
  | .notFound => 404
  | .forbidden => 403

/-- `MessageService.deleteMessage` (userService.js 663-714): `findById`;
404 when absent; 403 when the requester is not the sender; otherwise
unlink the referenced media file when it exists on disk (a missing file is
skipped, not an error), delete the record, and report success.  Returns the
result together with the store and the media filesystem after the call. -/
def deleteMessage (messageId : Nat) (userId : String)
    (st : List Message) (files : List String) :
    Except DeleteError Unit × List Message × List String :=
  if !strTruthy userId then
    (.error .missingIds, st, files)
  else
    match st.find? (fun m => decide (m.id = messageId)) with
    | none => (.error .notFound, st, files)
    | some m =>
      if !decide (m.sender = userId) then
        (.error .forbidden, st, files)
      else
        let files2 :=
          match m.message.image with
          | some p => if p ∈ files then files.erase p else files
          | none => files
        (.ok (), st.eraseP (fun x => decide (x.id = messageId)), files2)

/-- The `_id` expression of the `$group` stage of the conversations
aggregation (userService.js 742-748): participant slot 1 when slot 0
equals the requesting user's id, slot 0 otherwise. -/
def conversationKey (viewer : String) (m : Message) : Option String :=
  if m.users[0]? = some viewer then m.users[1]? else m.users[0]?

/-- Mongo `$concat`: concatenates its arguments, null when any argument is
null. -/
def mongoConcat : List (Option String) → Option String
  | [] => some ""
  | x :: xs =>
    match x with
    | none => none
    | some s =>
      match mongoConcat xs with
      | none => none
      | some t => some (s ++ t)

/-- The `lastMessage` expression of the `$group` stage (userService.js
749-761): the raw `message.text` for type `text`, the fixed marker
`"📷 Image"` for type `image`, and `$concat` of `message.text` with
`" 📷"` otherwise. -/
def previewExpr (c : Content) : Option String :=
  if c.type = ContentType.text then c.text
  else if c.type = ContentType.image then some "📷 Image"
  else mongoConcat [c.text, some " 📷"]

/-- One row of the conversations aggregation output: group key `_id`
(the peer), `lastMessage`, `lastMessageTime`, `messageCount`. -/
structure ConversationSummary where
  id : Option String
  lastMessage : Option String
  lastMessageTime : Option Nat
  messageCount : Nat
deriving DecidableEq, Repr

/-- First-occurrence deduplication of the group keys of the sorted stream:
the order in which `$group` emits its partitions. -/
def dedupFirst : List (Option String) → List (Option String)
  | [] => []
  | k :: ks => k :: (dedupFirst ks).filter (fun x => decide (x ≠ k))

/-- The conversations aggregation pipeline (userService.js 731-766):
`$match` the records whose `users` array contains the viewer, `$sort` by
`time` descending, `$group` by `conversationKey` taking `$first` of the
preview expression and of `time`, and `$sum` the partition sizes. -/
def conversationsAgg (viewer : String) (st : List Message) :
    List ConversationSummary :=
  let sorted := List.insertionSort (fun a b => b.time ≤ a.time)
    (st.filter (fun m => decide (viewer ∈ m.users)))
  let keys := dedupFirst (sorted.map (conversationKey viewer))
  keys.map (fun k =>
    let grp := sorted.filter (fun m => decide (conversationKey viewer m = k))
    { id := k
      lastMessage := match grp.head? with
        | some m => previewExpr m.message
        | none => none
      lastMessageTime := grp.head?.map Message.time
      messageCount := grp.length })

/-- `MessageService.getConversations` (userService.js 721-780): validates
the user id, then runs the aggregation. -/
def getConversations (userId : String) (st : List Message) :
    Except QueryError (List ConversationSummary) :=
  if !strTruthy userId then .error .missingIds
  else .ok (conversationsAgg userId st)

/-- The `$match` + `$sort` stages of the conversations pipeline. -/
def pipelineSorted (viewer : String) (st : List Message) : List Message :=
  List.insertionSort (fun a b => b.time ≤ a.time)
    (st.filter (fun m => decide (viewer ∈ m.users)))

/-- The record a successful `createMessage` persists. -/
def newRecord (senderId toId : String) (text imageFile : Option String)
    (newId now : Nat) : Message :=
  { id := newId
    message := classifyContent text imageFile
    users := [senderId, toId]
    sender := senderId
    time := now
    createdAt := now
    updatedAt := now }

/-- A two-party record helper for the concrete witness stores. -/
def wMsg (id : Nat) (u v sender : String) (c : Content) (t : Nat) : Message :=
  { id := id, message := c, users := [u, v], sender := sender,
    time := t, createdAt := t, updatedAt := t }

/-- Witness store: two messages between `u1` and `u2` plus one involving a
third user. -/
def histStore : List Message :=
  [wMsg 1 "u1" "u2" "u1" { text := some "hi", type := ContentType.text } 20,
   wMsg 2 "u2" "u1" "u2" { text := some "yo", type := ContentType.text } 10,
   wMsg 3 "u3" "u1" "u3" { text := some "x", type := ContentType.text } 5]

/-- Witness store: the two-message scenario of the spec (text from `u1`,
then an image from `u2`). -/
def chatStore : List Message :=
  [wMsg 1 "u1" "u2" "u1" { text := some "hi", type := ContentType.text } 10,
   wMsg 2 "u2" "u1" "u2" { image := some "/uploads/img1.png", type := ContentType.image } 20]

/-- Witness store: three messages between `A` and `B` and one between `A`
and `C`. -/
def convStore : List Message :=
  [wMsg 1 "A" "B" "A" { text := some "b1", type := ContentType.text } 10,
   wMsg 2 "B" "A" "B" { text := some "b2", type := ContentType.text } 20,
   wMsg 3 "A" "B" "A" { text := some "b3", type := ContentType.text } 30,
   wMsg 4 "A" "C" "A" { text := some "c1", type := ContentType.text } 15]

/-- Witness store for deletion: an image message from `u1` and a text
message from `u2`. -/
def delStore : List Message :=
  [wMsg 1 "u1" "u2" "u1" { image := some "/uploads/img1.png", type := ContentType.image } 10,
   wMsg 2 "u2" "u1" "u2" { text := some "yo", type := ContentType.text } 20]

/-! ### Supporting lemmas -/

instance : IsTotal Message (fun a b => b.time ≤ a.time) :=
  ⟨fun a b => (Nat.le_total a.time b.time).symm⟩

instance : IsTrans Message (fun a b => b.time ≤ a.time) :=
  ⟨fun _ _ _ hab hbc => Nat.le_trans hbc hab⟩

instance : IsTotal Message (fun a b => a.updatedAt ≤ b.updatedAt) :=
  ⟨fun x y => Nat.le_total x.updatedAt y.updatedAt⟩

instance : IsTrans Message (fun a b => a.updatedAt ≤ b.updatedAt) :=
  ⟨fun _ _ _ => Nat.le_trans⟩

theorem mem_dedupFirst {x : Option String} :
    ∀ {l : List (Option String)}, x ∈ dedupFirst l ↔ x ∈ l := by
  intro l
  induction l with
  | nil => simp [dedupFirst]
  | cons k ks ih =>
    by_cases hx : x = k
    · subst hx
      simp [dedupFirst]
    · simp only [dedupFirst, List.mem_cons, hx, false_or]
      rw [List.mem_filter]
      simp [hx, ih]

theorem nodup_dedupFirst : ∀ l : List (Option String), (dedupFirst l).Nodup := by
  intro l
  induction l with
  | nil => simp [dedupFirst]
  | cons k ks ih =>
    simp only [dedupFirst]
    rw [List.nodup_cons]
    refine ⟨?_, List.Nodup.filter _ ih⟩
    intro hk
    rw [List.mem_filter] at hk
    simp at hk

theorem conversationsAgg_eq (viewer : String) (st : List Message) :
    conversationsAgg viewer st =
      (dedupFirst ((pipelineSorted viewer st).map (conversationKey viewer))).map
        (fun k =>
          { id := k
            lastMessage := match ((pipelineSorted viewer st).filter
                (fun m => decide (conversationKey viewer m = k))).head? with
              | some m => previewExpr m.message
              | none => none
            lastMessageTime := ((pipelineSorted viewer st).filter
                (fun m => decide (conversationKey viewer m = k))).head?.map Message.time
            messageCount := ((pipelineSorted viewer st).filter
                (fun m => decide (conversationKey viewer m = k))).length }) := rfl

theorem mem_pipelineSorted {viewer : String} {st : List Message} {m : Message} :
    m ∈ pipelineSorted viewer st ↔ m ∈ st ∧ viewer ∈ m.users := by
  unfold pipelineSorted
  rw [List.mem_insertionSort, List.mem_filter]
  simp

theorem pipelineSorted_perm (viewer : String) (st : List Message) :
    List.Perm (pipelineSorted viewer st)
      (st.filter (fun m => decide (viewer ∈ m.users))) :=
  List.perm_insertionSort _ _

theorem pipelineSorted_sorted (viewer : String) (st : List Message) :
    (pipelineSorted viewer st).Pairwise (fun a b => b.time ≤ a.time) :=
  List.sorted_insertionSort _ _

theorem getConversations_ok {viewer : String} (st : List Message)
    (h : viewer ≠ "") :
    getConversations viewer st = .ok (conversationsAgg viewer st) := by
  simp [getConversations, strTruthy, h]

/-- Every summary row emitted by the aggregation comes from a nonempty
partition of the sorted stream: there is a representative message of the
row's group, first in `time`-descending order among the group, whose
preview expression and `time` populate `lastMessage` / `lastMessageTime`,
and the row's `messageCount` is the number of matched messages with the
same group key. -/
theorem conversationsAgg_spec {viewer : String} {st : List Message}
    {s : ConversationSummary} (hs : s ∈ conversationsAgg viewer st) :
    ∃ m, m ∈ st ∧ viewer ∈ m.users ∧ conversationKey viewer m = s.id ∧
      s.lastMessage = previewExpr m.message ∧
      s.lastMessageTime = some m.time ∧
      (∀ m' ∈ st, viewer ∈ m'.users → conversationKey viewer m' = s.id →
        m'.time ≤ m.time) ∧
      s.messageCount = (st.filter (fun m' =>
        decide (viewer ∈ m'.users ∧ conversationKey viewer m' = s.id))).length := by
  rw [conversationsAgg_eq] at hs
  obtain ⟨k, hk, rfl⟩ := List.mem_map.mp hs
  obtain ⟨m₀, hm₀, hkey₀⟩ := List.mem_map.mp (mem_dedupFirst.mp hk)
  set grp := (pipelineSorted viewer st).filter
    (fun m => decide (conversationKey viewer m = k)) with hgrpdef
  have hmem_g : ∀ {x : Message},
      x ∈ grp ↔ x ∈ st ∧ viewer ∈ x.users ∧ conversationKey viewer x = k := by
    intro x
    rw [hgrpdef, List.mem_filter, mem_pipelineSorted]
    simp [and_assoc]
  have hm₀g : m₀ ∈ grp := hmem_g.mpr ⟨(mem_pipelineSorted.mp hm₀).1,
    (mem_pipelineSorted.mp hm₀).2, hkey₀⟩
  have hgs : grp.Pairwise (fun a b => b.time ≤ a.time) :=
    (pipelineSorted_sorted viewer st).filter _
  cases hg : grp with
  | nil => rw [hg] at hm₀g; cases hm₀g
  | cons m1 t =>
    have hm1g : m1 ∈ grp := by rw [hg]; exact List.mem_cons_self _ _
    have hmax : ∀ x ∈ grp, x.time ≤ m1.time := by
      intro x hx
      rw [hg] at hx hgs
      rcases List.mem_cons.mp hx with rfl | hx'
      · exact Nat.le_refl _
      · exact (List.pairwise_cons.mp hgs).1 x hx'
    obtain ⟨hm1st, hm1v, hm1k⟩ := hmem_g.mp hm1g
    have hcount : grp.length = (st.filter (fun m' =>
        decide (viewer ∈ m'.users ∧ conversationKey viewer m' = k))).length := by
      have hperm : List.Perm grp
          ((st.filter (fun m => decide (viewer ∈ m.users))).filter
            (fun m => decide (conversationKey viewer m = k))) :=
        (pipelineSorted_perm viewer st).filter _
      rw [hperm.length_eq, List.filter_filter]
      have : ∀ a ∈ st,
          (decide (conversationKey viewer a = k) && decide (viewer ∈ a.users)) =
          decide (viewer ∈ a.users ∧ conversationKey viewer a = k) := by
        intro a _
        by_cases h1 : viewer ∈ a.users <;> by_cases h2 : conversationKey viewer a = k <;>
          simp [h1, h2]
      rw [List.filter_congr this]
    refine ⟨m1, hm1st, hm1v, hm1k, rfl, rfl, ?_, ?_⟩
    · intro m' hm' hv' hk'
      exact hmax m' (hmem_g.mpr ⟨hm', hv', hk'⟩)
    · rw [hg] at hcount
      exact hcount

/-- Every matched message has a summary row whose group key is the
message's `conversationKey`. -/
theorem conversationsAgg_covers {viewer : String} {st : List Message}
    {m : Message} (hm : m ∈ st) (hv : viewer ∈ m.users) :
    ∃ s ∈ conversationsAgg viewer st, s.id = conversationKey viewer m := by
  rw [conversationsAgg_eq]
  have hmem : m ∈ pipelineSorted viewer st := mem_pipelineSorted.mpr ⟨hm, hv⟩
  have hk : conversationKey viewer m ∈
      dedupFirst ((pipelineSorted viewer st).map (conversationKey viewer)) :=
    mem_dedupFirst.mpr (List.mem_map_of_mem _ hmem)
  exact ⟨_, List.mem_map_of_mem _ hk, rfl⟩

/-- The aggregation emits at most one row per group key. -/
theorem conversationsAgg_ids_nodup (viewer : String) (st : List Message) :
    ((conversationsAgg viewer st).map (fun s => s.id)).Nodup := by
  have e : (conversationsAgg viewer st).map (fun s => s.id) =
      dedupFirst ((pipelineSorted viewer st).map (conversationKey viewer)) := by
    rw [conversationsAgg_eq, List.map_map]
    exact List.map_id _
  rw [e]
  exact nodup_dedupFirst _

/-- For a record whose participants array is a pair of two distinct users
one of whom is the viewer, the positional group key picks exactly the other
participant. -/
theorem conversationKey_pair {viewer u v : String} {m : Message}
    (huv : m.users = [u, v]) (hne : u ≠ v) (hv : viewer ∈ m.users) (kv : String) :
    conversationKey viewer m = some kv ↔ kv ∈ m.users ∧ kv ≠ viewer := by
  have hkey : conversationKey viewer m = if u = viewer then some v else some u := by
    simp only [conversationKey, huv, List.getElem?_cons_zero, List.getElem?_cons_succ]
    by_cases h : u = viewer
    · simp [h]
    · simp [h]
  rw [huv] at hv
  rw [hkey, huv]
  by_cases h : u = viewer
  · subst h
    rw [if_pos rfl]
    constructor
    · rintro h2
      rw [Option.some_inj] at h2
      subst h2
      exact ⟨by simp, fun h3 => hne h3.symm⟩
    · rintro ⟨hmem, hnv⟩
      simp only [List.mem_cons, List.not_mem_nil, or_false] at hmem
      rcases hmem with rfl | rfl
      · exact absurd rfl hnv
      · rfl
  · have hvv : viewer = v := by
      simp only [List.mem_cons, List.not_mem_nil, or_false] at hv
      rcases hv with h1 | h1
      · exact absurd h1.symm h
      · exact h1
    subst hvv
    rw [if_neg h]
    constructor
    · rintro h2
      rw [Option.some_inj] at h2
      subst h2
      exact ⟨by simp, fun h3 => h h3⟩
    · rintro ⟨hmem, hnv⟩
      simp only [List.mem_cons, List.not_mem_nil, or_false] at hmem
      rcases hmem with rfl | rfl
      · rfl
      · exact absurd rfl hnv

theorem getMessages_ok {a b : String} (st : List Message)
    (ha : a ≠ "") (hb : b ≠ "") :
    getMessages a b st =
      .ok ((List.insertionSort (fun x y => x.updatedAt ≤ y.updatedAt)
        (st.filter (fun m => decide (a ∈ m.users) && decide (b ∈ m.users)))).map
          (project a)) := by
  simp [getMessages, strTruthy, ha, hb]

theorem createMessage_ok {senderId toId : String} {text imageFile : Option String}
    {newId now : Nat} (st : List Message)
    (hs : senderId ≠ "") (ht : toId ≠ "")
    (hc : optTruthy text = true ∨ optTruthy imageFile = true) :
    createMessage senderId toId text imageFile newId now st =
      (.ok (newRecord senderId toId text imageFile newId now),
       st ++ [newRecord senderId toId text imageFile newId now]) := by
  have h1 : strTruthy senderId = true := by simp [strTruthy, hs]
  have h2 : strTruthy toId = true := by simp [strTruthy, ht]
  unfold createMessage newRecord
  rw [h1, h2]
  rcases hc with hc | hc <;> rw [hc] <;> simp

end ChatApp

namespace ChatApp

/-! ### Claim theorems -/

/-- C4: for every send request, the created message's content tag is derived
exactly as: both bodyText and imageRef present yields `mixed` with both the
text and image fields populated; only imageRef present yields `image` with
the image path; otherwise (non-empty bodyText alone) yields `text` with
`content.text` equal to the given bodyText. -/
theorem send_content_classification
    (senderId toId : String) (text imageFile : Option String)
    (newId now : Nat) (st : List Message)
    (hsend : senderId ≠ "") (hto : toId ≠ "") :
    (∀ b f, text = some b → b ≠ "" → imageFile = some f → f ≠ "" →
      ∃ m st2, createMessage senderId toId text imageFile newId now st = (.ok m, st2) ∧
        m.message.type = ContentType.mixed ∧
        m.message.text = some b ∧
        m.message.image = some ("/uploads/" ++ f)) ∧
    (∀ f, optTruthy text = false → imageFile = some f → f ≠ "" →
      ∃ m st2, createMessage senderId toId text imageFile newId now st = (.ok m, st2) ∧
        m.message.type = ContentType.image ∧
        m.message.image = some ("/uploads/" ++ f) ∧
        m.message.text = none) ∧
    (∀ b, text = some b → b ≠ "" → optTruthy imageFile = false →
      ∃ m st2, createMessage senderId toId text imageFile newId now st = (.ok m, st2) ∧
        m.message.type = ContentType.text ∧
        m.message.text = some b ∧
        m.message.image = none) := by
  refine ⟨?_, ?_, ?_⟩
  · rintro b f rfl hb rfl hf
    have htb : optTruthy (some b) = true := by simp [optTruthy, hb]
    have hfb : optTruthy (some f) = true := by simp [optTruthy, hf]
    refine ⟨_, _, createMessage_ok st hsend hto (Or.inl htb), ?_, ?_, ?_⟩ <;>
      simp [newRecord, classifyContent, htb, hfb]
  · rintro f htf rfl hf
    have hfb : optTruthy (some f) = true := by simp [optTruthy, hf]
    refine ⟨_, _, createMessage_ok st hsend hto (Or.inr hfb), ?_, ?_, ?_⟩ <;>
      simp [newRecord, classifyContent, htf, hfb]
  · rintro b rfl hb hif
    have htb : optTruthy (some b) = true := by simp [optTruthy, hb]
    refine ⟨_, _, createMessage_ok st hsend hto (Or.inl htb), ?_, ?_, ?_⟩ <;>
      simp [newRecord, classifyContent, htb, hif]

/-- C4 witness: concrete sends in all three shapes. -/
theorem send_content_classification_witness :
    ("u1" : String) ≠ "" ∧ ("u2" : String) ≠ "" ∧
    (∃ m st2, createMessage "u1" "u2" (some "hi") (some "p.png") 1 5 [] = (.ok m, st2) ∧
      m.message.type = ContentType.mixed ∧
      m.message.text = some "hi" ∧
      m.message.image = some "/uploads/p.png") ∧
    (∃ m st2, createMessage "u1" "u2" none (some "p.png") 1 5 [] = (.ok m, st2) ∧
      m.message.type = ContentType.image ∧
      m.message.image = some "/uploads/p.png" ∧
      m.message.text = none) ∧
    (∃ m st2, createMessage "u1" "u2" (some "hi") none 1 5 [] = (.ok m, st2) ∧
      m.message.type = ContentType.text ∧
      m.message.text = some "hi" ∧
      m.message.image = none) :=
  ⟨by decide, by decide,
    (send_content_classification "u1" "u2" (some "hi") (some "p.png") 1 5 []
      (by decide) (by decide)).1 "hi" "p.png" rfl (by decide) rfl (by decide),
    (send_content_classification "u1" "u2" none (some "p.png") 1 5 []
      (by decide) (by decide)).2.1 "p.png" rfl rfl (by decide),
    (send_content_classification "u1" "u2" (some "hi") none 1 5 []
      (by decide) (by decide)).2.2 "hi" rfl (by decide) rfl⟩

/-- C7: a send request whose bodyText and imageRef are both absent or empty
fails with a 400 validation error and leaves the message store unchanged. -/
theorem send_empty_content_rejected
    (senderId toId : String) (text imageFile : Option String)
    (newId now : Nat) (st : List Message)
    (htext : optTruthy text = false) (himg : optTruthy imageFile = false) :
    ∃ e, createMessage senderId toId text imageFile newId now st = (.error e, st) ∧
      e.statusCode = 400 := by
  unfold createMessage
  by_cases h : (!strTruthy senderId || !strTruthy toId) = true
  · rw [if_pos h]
    exact ⟨.missingIds, rfl, rfl⟩
  · rw [if_neg h, if_pos (by rw [htext, himg]; rfl)]
    exact ⟨.emptyContent, rfl, rfl⟩

/-- C7 witness: an empty send against a nonempty store is rejected with the
store intact. -/
theorem send_empty_content_rejected_witness :
    optTruthy none = false ∧
    ∃ e, createMessage "u1" "u2" none none 7 9
        [{ id := 1, message := { text := some "hi", type := ContentType.text },
           users := ["u1", "u2"], sender := "u1",
           time := 3, createdAt := 3, updatedAt := 3 }] =
      (.error e,
        [{ id := 1, message := { text := some "hi", type := ContentType.text },
           users := ["u1", "u2"], sender := "u1",
           time := 3, createdAt := 3, updatedAt := 3 }]) ∧
      e.statusCode = 400 :=
  ⟨rfl, send_empty_content_rejected "u1" "u2" none none 7 9 _ rfl rfl⟩

/-- C9: `history` is a pure read: as a state transformer it leaves the
message store unchanged, and running it a second time on the resulting
store returns the identical sequence. -/
theorem history_pure_read (viewerId peerId : String) (st : List Message) :
    (getMessagesOp viewerId peerId st).2 = st ∧
    (getMessagesOp viewerId peerId ((getMessagesOp viewerId peerId st).2)).1 =
      (getMessagesOp viewerId peerId st).1 :=
  ⟨rfl, rfl⟩

/-- C10: every record a successful send creates stores its participants
positionally, sender in slot 0 and recipient in slot 1, so
`sender = participants[0]` holds, and the aggregation's positional peer
rule applied by the sender picks the recipient. -/
theorem send_participants_positional
    (senderId toId : String) (text imageFile : Option String)
    (newId now : Nat) (st st2 : List Message) (m : Message)
    (h : createMessage senderId toId text imageFile newId now st = (.ok m, st2)) :
    m.users = [senderId, toId] ∧
    m.sender = senderId ∧
    m.users[0]? = some m.sender ∧
    conversationKey m.sender m = some toId ∧
    st2 = st ++ [m] := by
  unfold createMessage at h
  by_cases h1 : (!strTruthy senderId || !strTruthy toId) = true
  · rw [if_pos h1] at h
    simp at h
  · rw [if_neg h1] at h
    by_cases h2 : (!optTruthy text && !optTruthy imageFile) = true
    · rw [if_pos h2] at h
      simp at h
    · rw [if_neg h2] at h
      rw [Prod.mk.injEq] at h
      obtain ⟨hm, hst⟩ := h
      injection hm with hm
      subst hm
      refine ⟨rfl, rfl, rfl, ?_, hst.symm⟩
      simp [conversationKey]

/-- C5: `history(A, B)` returns exactly the messages whose participants
include both `A` and `B`, in non-decreasing `createdAt` order.  The query
sorts on `updatedAt`; the hypothesis that `updatedAt = createdAt` on every
stored record is the immutability invariant of the store (records are
written once and never updated). -/
theorem history_pair_sorted
    (a b : String) (st : List Message)
    (ha : a ≠ "") (hb : b ≠ "")
    (hinv : ∀ m ∈ st, m.updatedAt = m.createdAt) :
    ∃ ms : List Message,
      List.Perm ms (st.filter (fun m => decide (a ∈ m.users ∧ b ∈ m.users))) ∧
      ms.Pairwise (fun x y => x.createdAt ≤ y.createdAt) ∧
      getMessages a b st = .ok (ms.map (project a)) := by
  refine ⟨List.insertionSort (fun x y => x.updatedAt ≤ y.updatedAt)
    (st.filter (fun m => decide (a ∈ m.users) && decide (b ∈ m.users))), ?_, ?_, ?_⟩
  · have he : st.filter (fun m => decide (a ∈ m.users) && decide (b ∈ m.users)) =
        st.filter (fun m => decide (a ∈ m.users ∧ b ∈ m.users)) :=
      List.filter_congr (by
        intro x _
        by_cases h1 : a ∈ x.users <;> by_cases h2 : b ∈ x.users <;> simp [h1, h2])
    rw [he]
    exact List.perm_insertionSort _ _
  · have hsorted : (List.insertionSort (fun x y => x.updatedAt ≤ y.updatedAt)
        (st.filter (fun m => decide (a ∈ m.users) && decide (b ∈ m.users)))).Pairwise
        (fun x y => x.updatedAt ≤ y.updatedAt) :=
      List.sorted_insertionSort _ _
    refine hsorted.imp_of_mem ?_
    intro x y hx hy hxy
    have hx' : x ∈ st := by
      rw [List.mem_insertionSort] at hx
      exact List.mem_of_mem_filter hx
    have hy' : y ∈ st := by
      rw [List.mem_insertionSort] at hy
      exact List.mem_of_mem_filter hy
    rw [hinv x hx', hinv y hy'] at hxy
    exact hxy
  · exact getMessages_ok st ha hb

/-- C5 witness: two messages between `u1` and `u2` and one involving a third
user come back as the ordered pair history. -/
theorem history_pair_sorted_witness :
    ("u1" : String) ≠ "" ∧ ("u2" : String) ≠ "" ∧
    (∀ m ∈ histStore, m.updatedAt = m.createdAt) ∧
    ∃ ms : List Message,
      List.Perm ms (histStore.filter (fun m => decide ("u1" ∈ m.users ∧ "u2" ∈ m.users))) ∧
      ms.Pairwise (fun x y => x.createdAt ≤ y.createdAt) ∧
      getMessages "u1" "u2" histStore = .ok (ms.map (project "u1")) :=
  ⟨by decide, by decide, by decide,
   history_pair_sorted "u1" "u2" histStore (by decide) (by decide) (by decide)⟩

/-- C6: every record `history(viewerId, peerId)` returns carries
`fromSelf = true` exactly when the underlying message's sender is the
viewer, and exposes only that flag plus the content payload, timestamp and
id of the underlying stored message. -/
theorem history_fromSelf_projection
    (a b : String) (st : List Message)
    (ha : a ≠ "") (hb : b ≠ "")
    (l : List ProjectedMessage) (hl : getMessages a b st = .ok l) :
    ∀ r ∈ l, ∃ m, m ∈ st ∧ a ∈ m.users ∧ b ∈ m.users ∧
      (r.fromSelf = true ↔ m.sender = a) ∧
      r.message = m.message ∧ r.time = m.time ∧ r.id = m.id := by
  rw [getMessages_ok st ha hb] at hl
  injection hl with hl
  intro r hr
  rw [← hl] at hr
  obtain ⟨m, hm, rfl⟩ := List.mem_map.mp hr
  rw [List.mem_insertionSort, List.mem_filter] at hm
  obtain ⟨hmst, hpred⟩ := hm
  rw [Bool.and_eq_true, decide_eq_true_eq, decide_eq_true_eq] at hpred
  refine ⟨m, hmst, hpred.1, hpred.2, ?_, rfl, rfl, rfl⟩
  simp [project]

/-- C6 witness: the two-message history of the spec scenario, checked
through the theorem. -/
theorem history_fromSelf_projection_witness :
    ("u1" : String) ≠ "" ∧ ("u2" : String) ≠ "" ∧
    ∀ r ∈ [({ fromSelf := true,
              message := { text := some "hi", type := ContentType.text },
              time := 10, id := 1 } : ProjectedMessage),
           { fromSelf := false,
             message := { image := some "/uploads/img1.png", type := ContentType.image },
             time := 20, id := 2 }],
      ∃ m, m ∈ chatStore ∧ "u1" ∈ m.users ∧ "u2" ∈ m.users ∧
        (r.fromSelf = true ↔ m.sender = "u1") ∧
        r.message = m.message ∧ r.time = m.time ∧ r.id = m.id :=
  ⟨by decide, by decide,
   history_fromSelf_projection "u1" "u2" chatStore (by decide) (by decide) _ rfl⟩

/-- With distinct ids, `find?` locates exactly the member with the id. -/
theorem find?_id_unique {st : List Message} {mid : Nat} {m : Message}
    (hids : (st.map (fun x => x.id)).Nodup) (hm : m ∈ st) (hid : m.id = mid) :
    st.find? (fun x => decide (x.id = mid)) = some m := by
  induction st with
  | nil => cases hm
  | cons y ys ih =>
    rw [List.map_cons, List.nodup_cons] at hids
    by_cases hy : y.id = mid
    · rw [List.find?_cons_of_pos _ (by simp [hy])]
      rcases List.mem_cons.mp hm with rfl | hm2
      · rfl
      · have hmem : m.id ∈ List.map (fun x => x.id) ys := List.mem_map_of_mem _ hm2
        rw [hid, ← hy] at hmem
        exact absurd hmem hids.1
    · rw [List.find?_cons_of_neg _ (by simp [hy])]
      rcases List.mem_cons.mp hm with rfl | hm2
      · exact absurd hid hy
      · exact ih hids.2 hm2

/-- With distinct ids, erasing the record with a given id leaves no record
with that id behind. -/
theorem eraseP_id_clears : ∀ (st : List Message) (mid : Nat),
    (st.map (fun x => x.id)).Nodup →
    ∀ x ∈ st.eraseP (fun x => decide (x.id = mid)), x.id ≠ mid := by
  intro st mid
  induction st with
  | nil => intro _ x hx; cases hx
  | cons y ys ih =>
    intro hids x hx
    rw [List.map_cons, List.nodup_cons] at hids
    by_cases hy : y.id = mid
    · simp only [List.eraseP_cons, hy, decide_True, cond_true] at hx
      intro hxid
      have hmem : x.id ∈ List.map (fun z => z.id) ys := List.mem_map_of_mem _ hx
      rw [hxid, ← hy] at hmem
      exact hids.1 hmem
    · simp only [List.eraseP_cons, decide_eq_true_eq, hy, decide_False, cond_false] at hx
      rcases List.mem_cons.mp hx with rfl | hx2
      · exact hy
      · exact ih hids.2 x hx2

/-- C8: `remove(messageId, requesterId)` fails with `NotFound` (404) when no
message with the id exists, fails with `Forbidden` (403) leaving store and
media untouched when the requester is not the sender, and for the sender it
deletes the record, best-effort unlinks any referenced media (a missing
file is swallowed), and every subsequent history omits the message. -/
theorem delete_message_spec
    (messageId : Nat) (userId : String) (st : List Message) (files : List String)
    (hu : userId ≠ "")
    (hids : (st.map (fun x => x.id)).Nodup) :
    ((∀ m ∈ st, m.id ≠ messageId) →
      deleteMessage messageId userId st files = (.error .notFound, st, files)) ∧
    DeleteError.statusCode DeleteError.notFound = 404 ∧
    (∀ m, m ∈ st → m.id = messageId → m.sender ≠ userId →
      deleteMessage messageId userId st files = (.error .forbidden, st, files)) ∧
    DeleteError.statusCode DeleteError.forbidden = 403 ∧
    (∀ m, m ∈ st → m.id = messageId → m.sender = userId →
      ∃ st2 files2,
        deleteMessage messageId userId st files = (.ok (), st2, files2) ∧
        st2 = st.eraseP (fun x => decide (x.id = messageId)) ∧
        (∀ x ∈ st2, x ∈ st) ∧
        (∀ x ∈ st2, x.id ≠ messageId) ∧
        (m.message.image = none → files2 = files) ∧
        (∀ p, m.message.image = some p → p ∈ files → files2 = files.erase p) ∧
        (∀ p, m.message.image = some p → p ∉ files → files2 = files) ∧
        (∀ a b l, getMessages a b st2 = .ok l → ∀ r ∈ l, r.id ≠ messageId)) := by
  have hut : strTruthy userId = true := by simp [strTruthy, hu]
  refine ⟨?_, rfl, ?_, rfl, ?_⟩
  · intro hnone
    have hfind : st.find? (fun m => decide (m.id = messageId)) = none :=
      List.find?_eq_none.mpr (by intro x hx; simp [hnone x hx])
    simp [deleteMessage, hut, hfind]
  · intro m hm hmid hsender
    have hfind := find?_id_unique hids hm hmid
    have hs : decide (m.sender = userId) = false := by simp [hsender]
    simp [deleteMessage, hut, hfind, hs]
  · intro m hm hmid hsender
    have hfind := find?_id_unique hids hm hmid
    have hs : decide (m.sender = userId) = true := by simp [hsender]
    refine ⟨st.eraseP (fun x => decide (x.id = messageId)),
      (match m.message.image with
        | some p => if p ∈ files then files.erase p else files
        | none => files), ?_, rfl, ?_, ?_, ?_, ?_, ?_, ?_⟩
    · simp [deleteMessage, hut, hfind, hs]
    · intro x hx
      exact List.eraseP_subset _ hx
    · exact eraseP_id_clears st messageId hids
    · intro hnone
      rw [hnone]
    · intro p hp hpin
      rw [hp]
      simp [hpin]
    · intro p hp hpnot
      rw [hp]
      simp [hpnot]
    · intro a b l hl r hr
      by_cases hc : (!strTruthy a || !strTruthy b) = true
      · unfold getMessages at hl
        rw [if_pos hc] at hl
        cases hl
      · unfold getMessages at hl
        rw [if_neg hc] at hl
        injection hl with hl
        rw [← hl] at hr
        obtain ⟨mm, hmm, rfl⟩ := List.mem_map.mp hr
        rw [List.mem_insertionSort, List.mem_filter] at hmm
        have hne := eraseP_id_clears st messageId hids mm hmm.1
        simpa [project] using hne

/-- C8 witness: not-found, forbidden, and sender-deletes cases on a concrete
store with a referenced media file. -/
theorem delete_message_spec_witness :
    ("u1" : String) ≠ "" ∧ ("u2" : String) ≠ "" ∧ ("u9" : String) ≠ "" ∧
    (delStore.map (fun x => x.id)).Nodup ∧
    deleteMessage 99 "u9" delStore [] = (.error .notFound, delStore, []) ∧
    deleteMessage 1 "u2" delStore ["/uploads/img1.png"] =
      (.error .forbidden, delStore, ["/uploads/img1.png"]) ∧
    (∃ st2 files2,
      deleteMessage 1 "u1" delStore ["/uploads/img1.png"] = (.ok (), st2, files2) ∧
      st2 = delStore.eraseP (fun x => decide (x.id = 1)) ∧
      (∀ x ∈ st2, x.id ≠ 1) ∧
      files2 = List.erase ["/uploads/img1.png"] "/uploads/img1.png") := by
  refine ⟨by decide, by decide, by decide, by decide, ?_, ?_, ?_⟩
  · exact (delete_message_spec 99 "u9" delStore [] (by decide) (by decide)).1 (by decide)
  · exact (delete_message_spec 1 "u2" delStore ["/uploads/img1.png"]
      (by decide) (by decide)).2.2.1
      (wMsg 1 "u1" "u2" "u1"
        { image := some "/uploads/img1.png", type := ContentType.image } 10)
      (by decide) (by decide) (by decide)
  · obtain ⟨st2, files2, h1, h2, _, h4, _, h6, _, _⟩ :=
      (delete_message_spec 1 "u1" delStore ["/uploads/img1.png"]
        (by decide) (by decide)).2.2.2.2
        (wMsg 1 "u1" "u2" "u1"
          { image := some "/uploads/img1.png", type := ContentType.image } 10)
        (by decide) (by decide) (by decide)
    exact ⟨st2, files2, h1, h2, h4, h6 "/uploads/img1.png" rfl (by decide)⟩

/-- C1: `conversations(A)` yields exactly one summary per distinct peer;
each summary's `messageCount` is the number of stored messages between the
viewer and that peer, and its preview/time come from a most recent
(maximal `createdAt`) message of that peer's partition.  The hypotheses are
the store invariants the service maintains: participants are a pair of two
distinct users, and `time = createdAt` (both set once at creation). -/
theorem conversations_summary_per_peer
    (viewer : String) (st : List Message)
    (hviewer : viewer ≠ "")
    (hpair : ∀ m ∈ st, ∃ u v, m.users = [u, v] ∧ u ≠ v)
    (htime : ∀ m ∈ st, m.time = m.createdAt) :
    ∃ l, getConversations viewer st = .ok l ∧
      (l.map (fun s => s.id)).Nodup ∧
      (∀ s ∈ l, ∃ peer, s.id = some peer ∧ peer ≠ viewer ∧
        s.messageCount = (st.filter (fun m =>
          decide (viewer ∈ m.users ∧ peer ∈ m.users))).length ∧
        ∃ m, m ∈ st ∧ viewer ∈ m.users ∧ peer ∈ m.users ∧
          (∀ m2 ∈ st, viewer ∈ m2.users → peer ∈ m2.users →
            m2.createdAt ≤ m.createdAt) ∧
          s.lastMessage = previewExpr m.message ∧
          s.lastMessageTime = some m.createdAt) ∧
      (∀ peer, peer ≠ viewer →
        (∃ m, m ∈ st ∧ viewer ∈ m.users ∧ peer ∈ m.users) →
        ∃ s ∈ l, s.id = some peer) := by
  refine ⟨_, getConversations_ok st hviewer,
    conversationsAgg_ids_nodup viewer st, ?_, ?_⟩
  · intro s hs
    obtain ⟨m, hmst, hmv, hkey, hprev, htm, hmax, hcount⟩ := conversationsAgg_spec hs
    obtain ⟨u, v, huv, hne⟩ := hpair m hmst
    have hkey_form : ∃ peer, conversationKey viewer m = some peer := by
      simp only [conversationKey, huv, List.getElem?_cons_zero, List.getElem?_cons_succ]
      by_cases h : some u = some viewer
      · exact ⟨v, by rw [if_pos h]⟩
      · exact ⟨u, by rw [if_neg h]⟩
    obtain ⟨peer, hpeer⟩ := hkey_form
    obtain ⟨hpmem, hpnv⟩ := (conversationKey_pair huv hne hmv peer).mp hpeer
    have hsid : s.id = some peer := by rw [← hkey, hpeer]
    refine ⟨peer, hsid, hpnv, ?_, m, hmst, hmv, hpmem, ?_, hprev, ?_⟩
    · rw [hcount]
      congr 1
      refine List.filter_congr ?_
      intro x hx
      rw [decide_eq_decide]
      constructor
      · rintro ⟨hxv, hxk⟩
        obtain ⟨u2, v2, huv2, hne2⟩ := hpair x hx
        rw [hsid] at hxk
        exact ⟨hxv, ((conversationKey_pair huv2 hne2 hxv peer).mp hxk).1⟩
      · rintro ⟨hxv, hxp⟩
        obtain ⟨u2, v2, huv2, hne2⟩ := hpair x hx
        refine ⟨hxv, ?_⟩
        rw [hsid]
        exact (conversationKey_pair huv2 hne2 hxv peer).mpr ⟨hxp, hpnv⟩
    · intro m2 hm2 hv2 hp2
      obtain ⟨u2, v2, huv2, hne2⟩ := hpair m2 hm2
      have hk2 : conversationKey viewer m2 = s.id := by
        rw [hsid]
        exact (conversationKey_pair huv2 hne2 hv2 peer).mpr ⟨hp2, hpnv⟩
      have := hmax m2 hm2 hv2 hk2
      rw [htime m2 hm2, htime m hmst] at this
      exact this
    · rw [htm, htime m hmst]
  · rintro peer hpne ⟨m, hmst, hmv, hmp⟩
    obtain ⟨u, v, huv, hne⟩ := hpair m hmst
    have hkeym : conversationKey viewer m = some peer :=
      (conversationKey_pair huv hne hmv peer).mpr ⟨hmp, hpne⟩
    obtain ⟨s, hs, hsid⟩ := conversationsAgg_covers hmst hmv
    exact ⟨s, hs, by rw [hsid, hkeym]⟩

/-- C1 witness: after three messages with peer `B` and one with peer `C`,
the viewer `A` gets exactly two summaries, `B` with count 3 and preview of
the most recent of the three, `C` with count 1. -/
theorem conversations_summary_per_peer_witness :
    ("A" : String) ≠ "" ∧
    (∀ m ∈ convStore, ∃ u v, m.users = [u, v] ∧ u ≠ v) ∧
    (∀ m ∈ convStore, m.time = m.createdAt) ∧
    (∃ l, getConversations "A" convStore = .ok l ∧
      (l.map (fun s => s.id)).Nodup ∧
      (∀ s ∈ l, ∃ peer, s.id = some peer ∧ peer ≠ "A" ∧
        s.messageCount = (convStore.filter (fun m =>
          decide ("A" ∈ m.users ∧ peer ∈ m.users))).length ∧
        ∃ m, m ∈ convStore ∧ "A" ∈ m.users ∧ peer ∈ m.users ∧
          (∀ m2 ∈ convStore, "A" ∈ m2.users → peer ∈ m2.users →
            m2.createdAt ≤ m.createdAt) ∧
          s.lastMessage = previewExpr m.message ∧
          s.lastMessageTime = some m.createdAt) ∧
      (∀ peer, peer ≠ "A" →
        (∃ m, m ∈ convStore ∧ "A" ∈ m.users ∧ peer ∈ m.users) →
        ∃ s ∈ l, s.id = some peer)) ∧
    getConversations "A" convStore = .ok
      [{ id := some "B", lastMessage := some "b3",
         lastMessageTime := some 30, messageCount := 3 },
       { id := some "C", lastMessage := some "c1",
         lastMessageTime := some 15, messageCount := 1 }] := by
  refine ⟨by decide, ?_, by decide, ?_, rfl⟩
  · intro m hm
    simp only [convStore, wMsg, List.mem_cons, List.not_mem_nil, or_false] at hm
    rcases hm with rfl | rfl | rfl | rfl
    · exact ⟨"A", "B", rfl, by decide⟩
    · exact ⟨"B", "A", rfl, by decide⟩
    · exact ⟨"A", "B", rfl, by decide⟩
    · exact ⟨"A", "C", rfl, by decide⟩
  · refine conversations_summary_per_peer "A" convStore (by decide) ?_ (by decide)
    intro m hm
    simp only [convStore, wMsg, List.mem_cons, List.not_mem_nil, or_false] at hm
    rcases hm with rfl | rfl | rfl | rfl
    · exact ⟨"A", "B", rfl, by decide⟩
    · exact ⟨"B", "A", rfl, by decide⟩
    · exact ⟨"A", "B", rfl, by decide⟩
    · exact ⟨"A", "C", rfl, by decide⟩

/-- C2: the aggregation's peer group key is chosen positionally — slot 1
when slot 0 literally equals the viewer's id, slot 0 otherwise — with no
content-aware set-difference matching: every matched message is grouped
under exactly that key, whatever the shape of its participants array. -/
theorem conversations_positional_peer
    (viewer : String) (st : List Message) (hviewer : viewer ≠ "")
    (m : Message) (hm : m ∈ st) (hv : viewer ∈ m.users) :
    ∃ l, getConversations viewer st = .ok l ∧
      ∃ s ∈ l,
        s.id = (if m.users[0]? = some viewer then m.users[1]? else m.users[0]?) ∧
        s.messageCount = (st.filter (fun m2 => decide (viewer ∈ m2.users ∧
          (if m2.users[0]? = some viewer then m2.users[1]? else m2.users[0]?) =
            s.id))).length := by
  refine ⟨_, getConversations_ok st hviewer, ?_⟩
  obtain ⟨s, hs, hsid⟩ := conversationsAgg_covers hm hv
  obtain ⟨m1, _, _, _, _, _, _, hcount⟩ := conversationsAgg_spec hs
  refine ⟨s, hs, ?_, ?_⟩
  · rw [hsid]
    rfl
  · rw [hcount]
    rfl

/-- C2 witness: a store whose participant arrays put the viewer in either
slot; the summary keys follow the positional rule. -/
theorem conversations_positional_peer_witness :
    ("u1" : String) ≠ "" ∧
    (wMsg 2 "u2" "u1" "u2"
        { image := some "/uploads/img1.png", type := ContentType.image } 20) ∈ chatStore ∧
    "u1" ∈ (wMsg 2 "u2" "u1" "u2"
        { image := some "/uploads/img1.png", type := ContentType.image } 20).users ∧
    ∃ l, getConversations "u1" chatStore = .ok l ∧
      ∃ s ∈ l,
        s.id = (if (wMsg 2 "u2" "u1" "u2"
            { image := some "/uploads/img1.png", type := ContentType.image } 20).users[0]? =
              some "u1"
          then (wMsg 2 "u2" "u1" "u2"
            { image := some "/uploads/img1.png", type := ContentType.image } 20).users[1]?
          else (wMsg 2 "u2" "u1" "u2"
            { image := some "/uploads/img1.png", type := ContentType.image } 20).users[0]?) ∧
        s.messageCount = (chatStore.filter (fun m2 => decide ("u1" ∈ m2.users ∧
          (if m2.users[0]? = some "u1" then m2.users[1]? else m2.users[0]?) =
            s.id))).length :=
  ⟨by decide, by decide, by decide,
   conversations_positional_peer "u1" chatStore (by decide)
     (wMsg 2 "u2" "u1" "u2"
       { image := some "/uploads/img1.png", type := ContentType.image } 20)
     (by decide) (by decide)⟩

/-- C3: every conversation summary's preview is computed from the
representative (most recent in the group) message's content tag: the raw
body text for `text`, the fixed image marker for `image`, and the body text
concatenated with the image glyph for `mixed`. -/
theorem conversations_preview_rule
    (viewer : String) (st : List Message) (hviewer : viewer ≠ "")
    (l : List ConversationSummary) (hl : getConversations viewer st = .ok l)
    (s : ConversationSummary) (hs : s ∈ l) :
    ∃ m, m ∈ st ∧ viewer ∈ m.users ∧ conversationKey viewer m = s.id ∧
      (∀ m2 ∈ st, viewer ∈ m2.users → conversationKey viewer m2 = s.id →
        m2.time ≤ m.time) ∧
      (m.message.type = ContentType.text → s.lastMessage = m.message.text) ∧
      (m.message.type = ContentType.image → s.lastMessage = some "📷 Image") ∧
      (m.message.type = ContentType.mixed → ∀ bodyText, m.message.text = some bodyText →
        s.lastMessage = some (bodyText ++ " 📷")) := by
  rw [getConversations_ok st hviewer] at hl
  injection hl with hl
  subst hl
  obtain ⟨m, hmst, hmv, hkey, hprev, _, hmax, _⟩ := conversationsAgg_spec hs
  refine ⟨m, hmst, hmv, hkey, hmax, ?_, ?_, ?_⟩
  · intro ht
    rw [hprev]
    simp [previewExpr, ht]
  · intro ht
    rw [hprev]
    simp [previewExpr, ht]
  · intro ht bodyText htext
    rw [hprev]
    simp [previewExpr, ht, htext, mongoConcat]

/-- C3 witness: the preview of the image-message summary of the concrete
two-message store. -/
theorem conversations_preview_rule_witness :
    ("u1" : String) ≠ "" ∧
    getConversations "u1" chatStore = .ok
      [{ id := some "u2", lastMessage := some "📷 Image",
         lastMessageTime := some 20, messageCount := 2 }] ∧
    ∃ m, m ∈ chatStore ∧ "u1" ∈ m.users ∧
      conversationKey "u1" m =
        ({ id := some "u2", lastMessage := some "📷 Image",
           lastMessageTime := some 20, messageCount := 2 } : ConversationSummary).id ∧
      (∀ m2 ∈ chatStore, "u1" ∈ m2.users →
        conversationKey "u1" m2 =
          ({ id := some "u2", lastMessage := some "📷 Image",
             lastMessageTime := some 20, messageCount := 2 } : ConversationSummary).id →
        m2.time ≤ m.time) ∧
      (m.message.type = ContentType.text →
        ({ id := some "u2", lastMessage := some "📷 Image",
           lastMessageTime := some 20, messageCount := 2 } : ConversationSummary).lastMessage =
          m.message.text) ∧
      (m.message.type = ContentType.image →
        ({ id := some "u2", lastMessage := some "📷 Image",
           lastMessageTime := some 20, messageCount := 2 } : ConversationSummary).lastMessage =
          some "📷 Image") ∧
      (m.message.type = ContentType.mixed → ∀ bodyText, m.message.text = some bodyText →
        ({ id := some "u2", lastMessage := some "📷 Image",
           lastMessageTime := some 20, messageCount := 2 } : ConversationSummary).lastMessage =
          some (bodyText ++ " 📷")) :=
  ⟨by decide, rfl,
   conversations_preview_rule "u1" chatStore (by decide)
     [{ id := some "u2", lastMessage := some "📷 Image",
        lastMessageTime := some 20, messageCount := 2 }] rfl
     { id := some "u2", lastMessage := some "📷 Image",
       lastMessageTime := some 20, messageCount := 2 }
     (by decide)⟩

/-- C10 witness: a concrete successful send. -/
theorem send_participants_positional_witness :
    createMessage "u1" "u2" (some "hi") none 1 5 [] =
      (.ok { id := 1, message := { text := some "hi", type := ContentType.text },
             users := ["u1", "u2"], sender := "u1",
             time := 5, createdAt := 5, updatedAt := 5 },
       [{ id := 1, message := { text := some "hi", type := ContentType.text },
          users := ["u1", "u2"], sender := "u1",
          time := 5, createdAt := 5, updatedAt := 5 }]) ∧
    ({ id := 1, message := { text := some "hi", type := ContentType.text },
       users := ["u1", "u2"], sender := "u1",
       time := 5, createdAt := 5, updatedAt := 5 } : Message).users = ["u1", "u2"] ∧
    ({ id := 1, message := { text := some "hi", type := ContentType.text },
       users := ["u1", "u2"], sender := "u1",
       time := 5, createdAt := 5, updatedAt := 5 } : Message).sender = "u1" ∧
    conversationKey "u1"
      { id := 1, message := { text := some "hi", type := ContentType.text },
        users := ["u1", "u2"], sender := "u1",
        time := 5, createdAt := 5, updatedAt := 5 } = some "u2" := by
  have h : createMessage "u1" "u2" (some "hi") none 1 5 [] =
      (.ok { id := 1, message := { text := some "hi", type := ContentType.text },
             users := ["u1", "u2"], sender := "u1",
             time := 5, createdAt := 5, updatedAt := 5 },
       [{ id := 1, message := { text := some "hi", type := ContentType.text },
          users := ["u1", "u2"], sender := "u1",
          time := 5, createdAt := 5, updatedAt := 5 }]) := rfl
  have h2 := send_participants_positional "u1" "u2" (some "hi") none 1 5 [] _ _ h
  exact ⟨h, h2.1, h2.2.1, h2.2.2.2.1⟩

end ChatApp
